import Mathlib

/-!
Shallow embedding of `anki.py` (Terminal-Anki): a spaced-repetition review
tool.  Calendar dates are modelled as integer day numbers (the Python code
stores ISO date strings and compares parsed dates; date-only comparison on
day numbers is `≤` on `Int`).  The SHA-256 digest is modelled as an explicit
function parameter `hash : String → String`: every property below holds for
an arbitrary digest, and only *which text* is fed to the digest matters to
the claims.  File contents are modelled as their list of lines (the Python
code immediately does `content.split('\n')`).
-/

namespace Anki

/-- Review outcome codes: vim exit codes 0..5 in `anki.py` line 22. -/
inductive ReviewOutcome where
  | QUIT
  | WRONG
  | EDIT
  | SKIP
  | CORRECT
  | UNDO
  deriving Repr, DecidableEq

/-- One row of the `schedule_info` table: `(due_date, review_date_index)`.
`due_date` is a calendar date as an integer day number. -/
structure SchedEntry where
  due_date : Int
  review_date_index : Nat
  deriving Repr, DecidableEq

/-- The `schedule_info` table keyed by `question_hash` (the primary key):
an association list with at most one entry per key. -/
abbrev Store := List (String × SchedEntry)

/-- Lookup, i.e.
`SELECT due_date, review_date_index FROM schedule_info WHERE question_hash = ?`
(`get_due_date_and_schedule_index_from_database`, lines 74-82). -/
def storeGet : Store → String → Option SchedEntry
  | [], _ => none
  | (k', e) :: rest, k => if k' = k then some e else storeGet rest k

/-- Deletion, i.e. `DELETE FROM schedule_info WHERE question_hash = ?`. -/
def storeDelete : Store → String → Store
  | [], _ => []
  | (k', e) :: rest, k =>
    if k' = k then storeDelete rest k else (k', e) :: storeDelete rest k

/-- Upsert, i.e. `INSERT OR REPLACE INTO schedule_info ... VALUES (?, ?, ?)`. -/
def storePut (store : Store) (k : String) (e : SchedEntry) : Store :=
  (k, e) :: storeDelete store k

/-- The interval ladder `SCHEDULE_INTERVALS_DAYS = [0, 1, 3, 7, 14, 28, 56]`
(line 17). -/
def SCHEDULE_INTERVALS_DAYS : List Nat := [0, 1, 3, 7, 14, 28, 56]

/-- The current interval index, `info[1] if info else 1` (line 90): absent
entries act as virtual interval index 1. -/
def current_index_of (store : Store) (question_hash : String) : Nat :=
  match storeGet store question_hash with
  | some e => e.review_date_index
  | none => 1

/-- The scheduler, `update_schedule_after_review` (lines 85-109).  Returns `none` for the
outcome codes (`QUIT`/`EDIT`/`UNDO`) on which the Python function would hit
an unbound `new_index`; the session engine never passes those. -/
def update_schedule_after_review (store : Store) (question_hash : String)
    (review_result : ReviewOutcome) (today : Int) : Option Store :=
  let current_index := current_index_of store question_hash
  match review_result with
  | .WRONG => some (storePut store question_hash ⟨today, 0⟩)
  | .CORRECT =>
    let new_index := min (current_index + 1) (SCHEDULE_INTERVALS_DAYS.length - 1)
    some (storePut store question_hash
      ⟨today + (SCHEDULE_INTERVALS_DAYS.getD new_index 0 : Int), new_index⟩)
  | .SKIP => some (storePut store question_hash ⟨today, current_index⟩)
  | _ => none

/-- The `new_index` value computed by the `CORRECT` branch (line 97). -/
def correct_new_index (store : Store) (h : String) : Nat :=
  min (current_index_of store h + 1) (SCHEDULE_INTERVALS_DAYS.length - 1)

/-- Due-ness check, `is_question_due_for_review` (lines 112-118). -/
def is_question_due_for_review (store : Store) (question_hash : String)
    (today : Int) : Bool :=
  match storeGet store question_hash with
  | none => true
  | some e => e.due_date ≤ today

/-- A chunk, as its list of lines.  The Python code keeps chunks joined
with newlines; the first line of a chunk contains no newline, so the
line-list view is equivalent. -/
abbrev Chunk := List String

/-- Trim trailing blank lines: the
`while current_chunk_lines and current_chunk_lines[-1] == ''` loops
(lines 41-42 and 52-53). -/
def trimTrailingBlank (lines : List String) : List String :=
  (lines.reverse.dropWhile (fun l => l = "")).reverse

/-- Close the chunk being accumulated: trim trailing blanks and append it
when nonempty (lines 40-44 and 51-55 of `anki.py`).  An empty accumulator
contributes nothing, exactly like the Python guards. -/
def flushChunk (chunks : List Chunk) (current : List String) : List Chunk :=
  match trimTrailingBlank current with
  | [] => chunks
  | trimmed => chunks ++ [trimmed]

/-- The question-marker test `line.startswith('?')`: true iff the line's
first character is `?`.  Stated on the underlying character list. -/
def line_starts_with_question (line : String) : Bool :=
  match line.data with
  | [] => false
  | c :: _ => c = '?'

/-- The line loop of `parse_question_answer_pair_chunks_from_file`
(lines 37-48): a `?`-line starts a new chunk; other lines accumulate only
once a chunk has started. -/
def parseChunksLoop (lines : List String) (chunks : List Chunk)
    (current : List String) : List Chunk :=
  match lines with
  | [] => flushChunk chunks current
  | line :: rest =>
    if line_starts_with_question line then
      parseChunksLoop rest (flushChunk chunks current) [line]
    else
      match current with
      | [] => parseChunksLoop rest chunks []
      | _ => parseChunksLoop rest chunks (current ++ [line])

/-- The chunk parser `parse_question_answer_pair_chunks_from_file`
(lines 29-57), taking the file content already split at newlines. -/
def parse_question_answer_pair_chunks (lines : List String) : List Chunk :=
  parseChunksLoop lines [] []

/-- The question line of a chunk, `chunk.split('\n')[0]`. -/
def chunk_question_line (c : Chunk) : String := c.headD ""

/-- The full chunk text, question plus answer (`'\n'.join(lines)`). -/
def chunk_text (c : Chunk) : String := String.intercalate "\n" c

/-- The `current` set built by `delete_orphaned_schedule_entries`
(lines 145-149): for every chunk of every recognized file under the root,
the digest of the chunk's FIRST line (`chunk.split('\n')[0]`). -/
def prune_kept_hashes (hash : String → String) (files : List (List String)) :
    List String :=
  files.foldr
    (fun lines acc =>
      (parse_question_answer_pair_chunks lines).map
        (fun c => hash (chunk_question_line c)) ++ acc)
    []

/-- Pruning, `delete_orphaned_schedule_entries` (lines 136-160): delete every row
whose `question_hash` is not in the `current` set; keep the rest. -/
def delete_orphaned_schedule_entries (hash : String → String)
    (files : List (List String)) (store : Store) : Store :=
  store.filter (fun p => decide (p.1 ∈ prune_kept_hashes hash files))

/-- Modelled from the spec's words, for comparison with the source
definition above: the claim says the retained set is computed by hashing
the ENTIRE chunk text (question plus answer) of every chunk. -/
def prune_full_chunk_hashes (hash : String → String)
    (files : List (List String)) : List String :=
  files.foldr
    (fun lines acc =>
      (parse_question_answer_pair_chunks lines).map
        (fun c => hash (chunk_text c)) ++ acc)
    []

/-- Modelled from the spec's words: pruning as the claim describes it,
retaining exactly the entries keyed by a full-chunk-text digest. -/
def delete_orphaned_schedule_entries_claimed (hash : String → String)
    (files : List (List String)) (store : Store) : Store :=
  store.filter (fun p => decide (p.1 ∈ prune_full_chunk_hashes hash files))

/-- Due selection, `get_due_questions` (lines 229-236): the
`(question_line, chunk)` pairs of the chunks whose question-line digest is
due. -/
def get_due_questions (hash : String → String) (store : Store) (today : Int)
    (chunks : List Chunk) : List (String × Chunk) :=
  chunks.filterMap
    (fun c =>
      if is_question_due_for_review store (hash (chunk_question_line c)) today then
        some (chunk_question_line c, c)
      else none)

/-- The session filter at lines 255-256: drop due pairs whose digest was
already reviewed this session. -/
def filter_unreviewed (hash : String → String) (due : List (String × Chunk))
    (reviewed : List String) : List (String × Chunk) :=
  due.filter (fun p => decide (hash p.1 ∉ reviewed))

/-- An undo record (line 247): `(hash, prev_state, (question_line, chunk))`;
`prev_state = none` means the question was unseen before the outcome. -/
abbrev UndoRecord := String × Option SchedEntry × (String × Chunk)

/-- The in-memory state of one review session inside
`review_due_questions` (lines 239-317). -/
structure SessionState where
  store : Store
  reviewed : List String
  history : List UndoRecord
  queue : List (String × Chunk)
  deriving Repr, DecidableEq

/-- What one iteration of the inner presentation loop does next:
keep looping, break out to re-parse the file (EDIT), or end the
session (QUIT, undo-with-empty-history, or an exhausted queue). -/
inductive StepResult where
  | next (s : SessionState)
  | reparse (s : SessionState)
  | terminated (s : SessionState)
  deriving Repr, DecidableEq

/-- The session state carried by a step result, whichever way the
iteration ended. -/
def stepState : StepResult → SessionState
  | .next s => s
  | .reparse s => s
  | .terminated s => s

/-- One iteration of the inner loop of `review_due_questions`
(lines 267-313): pop the front card, present it (the outcome is this
function's argument), and dispatch on the outcome exactly as the code
does.  An empty queue ends the loop (the `while`-`else` at lines 314-317). -/
def session_handle_outcome (hash : String → String) (today : Int)
    (s : SessionState) (outcome : ReviewOutcome) : StepResult :=
  match s.queue with
  | [] => .terminated s
  | (question_line, chunk) :: rest =>
    let question_hash := hash question_line
    match outcome with
    | .QUIT => .terminated { s with queue := rest }
    | .EDIT => .reparse { s with queue := rest }
    | .UNDO =>
      match s.history with
      | [] => .terminated { s with queue := rest }
      | (prev_hash, prev_state, prev_card) :: hrest =>
        let store' :=
          match prev_state with
          | none => storeDelete s.store prev_hash
          | some e => storePut s.store prev_hash e
        .next
          { store := store'
            reviewed := s.reviewed.filter (fun x => decide (x ≠ prev_hash))
            history := hrest
            queue := prev_card :: (question_line, chunk) :: rest }
    | o =>
      match update_schedule_after_review s.store question_hash o today with
      | none => .terminated s
      | some store' =>
        .next
          { store := store'
            reviewed :=
              if question_hash ∈ s.reviewed then s.reviewed
              else question_hash :: s.reviewed
            history :=
              (question_hash, storeGet s.store question_hash,
                (question_line, chunk)) :: s.history
            queue := rest }

/-- Custom study, `custom_study_all_questions` (lines 320-333): parse the file and
present every chunk; the function performs no store operation, so the
store is threaded through unchanged.  Returns the final store and the
presented chunks. -/
def custom_study_all_questions (store : Store) (lines : List String) :
    Store × List Chunk :=
  match parse_question_answer_pair_chunks lines with
  | [] => (store, [])
  | chunks => (store, chunks)

theorem storeGet_storeDelete (st : Store) (k k' : String) :
    storeGet (storeDelete st k) k' = if k' = k then none else storeGet st k' := by
  induction st with
  | nil => simp [storeDelete, storeGet]
  | cons hd tl ih =>
    obtain ⟨k₀, e₀⟩ := hd
    simp only [storeDelete]
    by_cases h₀ : k₀ = k
    · subst h₀
      rw [if_pos rfl, ih]
      by_cases h₁ : k' = k₀
      · simp [h₁]
      · simp only [storeGet, if_neg h₁]
        rw [if_neg (fun h : k₀ = k' => h₁ h.symm)]
    · rw [if_neg h₀]
      by_cases h₂ : k₀ = k'
      · simp [storeGet, h₂, h₂ ▸ h₀]
      · simp [storeGet, h₂, ih]

theorem storeGet_storePut (st : Store) (k k' : String) (e : SchedEntry) :
    storeGet (storePut st k e) k' = if k = k' then some e else storeGet st k' := by
  by_cases h : k = k'
  · simp [storePut, storeGet, h]
  · simp only [storePut, storeGet, storeGet_storeDelete, if_neg h]
    rw [if_neg (fun h' : k' = k => h h'.symm)]

/-- On the three outcomes the session engine forwards to the scheduler,
`update_schedule_after_review` always upserts some entry for the hash. -/
theorem update_is_put (store : Store) (h : String) (today : Int)
    (o : ReviewOutcome) (ho : o = .WRONG ∨ o = .CORRECT ∨ o = .SKIP) :
    ∃ e, update_schedule_after_review store h o today = some (storePut store h e) := by
  rcases ho with rfl | rfl | rfl
  · exact ⟨_, rfl⟩
  · exact ⟨_, rfl⟩
  · exact ⟨_, rfl⟩

/-- Upserting then deleting a key that was absent leaves every lookup as
it was. -/
theorem restore_absent (st : Store) (h : String) (e : SchedEntry)
    (hp : storeGet st h = none) (k : String) :
    storeGet (storeDelete (storePut st h e) h) k = storeGet st k := by
  rw [storeGet_storeDelete]
  by_cases hk : k = h
  · subst hk
    simp [hp]
  · rw [if_neg hk, storeGet_storePut, if_neg (fun h' : h = k => hk h'.symm)]

/-- Upserting then restoring the previously stored entry leaves every
lookup as it was. -/
theorem restore_present (st : Store) (h : String) (e pe : SchedEntry)
    (hp : storeGet st h = some pe) (k : String) :
    storeGet (storePut (storePut st h e) h pe) k = storeGet st k := by
  rw [storeGet_storePut]
  by_cases hk : h = k
  · subst hk
    simp [hp]
  · rw [if_neg hk, storeGet_storePut, if_neg hk]

/-- Membership after `set.add` (modelled as guarded cons) followed by
`set.discard` (modelled as filter). -/
theorem mem_insert_filter_ne (l : List String) (h k : String) :
    (k ∈ (if h ∈ l then l else h :: l).filter (fun x => decide (x ≠ h)) ↔
      (k ∈ l ∧ k ≠ h)) := by
  by_cases hm : h ∈ l <;> simp [hm, List.mem_filter]

/-- C3: a CORRECT outcome stores interval index
`min(current_index + 1, ladder length - 1)` with due date
`today + ladder[new_index]`; an absent entry acts as current index 1, so
the first-ever CORRECT stores index 2 with a 3-day interval, and at the
top of the ladder the index stays at the maximum. -/
theorem correct_advances_schedule (store : Store) (h : String) (today : Int) :
    update_schedule_after_review store h .CORRECT today
      = some (storePut store h
          ⟨today + (SCHEDULE_INTERVALS_DAYS.getD (correct_new_index store h) 0 : Int),
            correct_new_index store h⟩) ∧
    storeGet
        (storePut store h
          ⟨today + (SCHEDULE_INTERVALS_DAYS.getD (correct_new_index store h) 0 : Int),
            correct_new_index store h⟩) h
      = some
          ⟨today + (SCHEDULE_INTERVALS_DAYS.getD (correct_new_index store h) 0 : Int),
            correct_new_index store h⟩ ∧
    (storeGet store h = none →
      correct_new_index store h = 2 ∧
      SCHEDULE_INTERVALS_DAYS.getD (correct_new_index store h) 0 = 3) ∧
    (current_index_of store h = SCHEDULE_INTERVALS_DAYS.length - 1 →
      correct_new_index store h = SCHEDULE_INTERVALS_DAYS.length - 1) := by
  refine ⟨rfl, ?_, ?_, ?_⟩
  · simp [storeGet_storePut]
  · intro hn
    simp [correct_new_index, current_index_of, hn, SCHEDULE_INTERVALS_DAYS]
  · intro htop
    simp [correct_new_index, htop]

/-- Witness for C3: on an empty store, CORRECT on day 0 stores index 2 due
day 3; and with a stored index at the ladder top (6), the new index is 6. -/
theorem correct_advances_schedule_witness :
    update_schedule_after_review ([] : Store) "q" .CORRECT 0 = some [("q", ⟨3, 2⟩)] ∧
    (correct_new_index ([] : Store) "q" = 2 ∧
      SCHEDULE_INTERVALS_DAYS.getD (correct_new_index ([] : Store) "q") 0 = 3) ∧
    correct_new_index [("q", (⟨0, 6⟩ : SchedEntry))] "q"
      = SCHEDULE_INTERVALS_DAYS.length - 1 :=
  ⟨(correct_advances_schedule [] "q" 0).1,
   (correct_advances_schedule [] "q" 0).2.2.1 rfl,
   (correct_advances_schedule [("q", ⟨0, 6⟩)] "q" 0).2.2.2 rfl⟩

/-- C4: a WRONG outcome stores interval index 0 with due date today, for
every prior state (present or absent). -/
theorem wrong_resets_schedule (store : Store) (h : String) (today : Int) :
    update_schedule_after_review store h .WRONG today
      = some (storePut store h ⟨today, 0⟩) ∧
    storeGet (storePut store h ⟨today, 0⟩) h = some ⟨today, 0⟩ := by
  refine ⟨rfl, ?_⟩
  simp [storeGet_storePut]

/-- C5: an identifier with no store entry is always due; one with an entry
is due exactly when its due date is at most today. -/
theorem is_question_due_spec (store : Store) (h : String) (today : Int) :
    (storeGet store h = none → is_question_due_for_review store h today = true) ∧
    (∀ e, storeGet store h = some e →
      (is_question_due_for_review store h today = true ↔ e.due_date ≤ today)) := by
  constructor
  · intro hn
    simp [is_question_due_for_review, hn]
  · intro e he
    simp [is_question_due_for_review, he]

/-- Witness for C5: an unseen identifier is due; a stored entry due on day
5 is not due on day 4 and is due on day 5. -/
theorem is_question_due_spec_witness :
    is_question_due_for_review ([] : Store) "q" 0 = true ∧
    (is_question_due_for_review [("a", (⟨5, 2⟩ : SchedEntry))] "a" 4 = true ↔
      (5 : Int) ≤ 4) ∧
    (is_question_due_for_review [("a", (⟨5, 2⟩ : SchedEntry))] "a" 5 = true ↔
      (5 : Int) ≤ 5) :=
  ⟨(is_question_due_spec [] "q" 0).1 rfl,
   (is_question_due_spec [("a", ⟨5, 2⟩)] "a" 4).2 ⟨5, 2⟩ rfl,
   (is_question_due_spec [("a", ⟨5, 2⟩)] "a" 5).2 ⟨5, 2⟩ rfl⟩

/-- C6 counterexample: SKIP on a previously-unseen identifier DOES create
a schedule-store entry (interval index 1, due today), contradicting the
claim that entries are created only on a first non-skip outcome. -/
theorem skip_creates_entry_counterexample :
    storeGet ([] : Store) "q" = none ∧
    update_schedule_after_review ([] : Store) "q" .SKIP 0
      = some [("q", ⟨0, 1⟩)] ∧
    storeGet [("q", (⟨0, 1⟩ : SchedEntry))] "q" = some ⟨0, 1⟩ := by
  exact ⟨rfl, rfl, rfl⟩

/-- C6 amended: processing a SKIP outcome for a previously-unseen
identifier creates a schedule entry with the virtual interval index 1 and
due date today; entries are created by the first processed non-undo
outcome, SKIP included. -/
theorem skip_on_unseen_creates_entry (store : Store) (h : String) (today : Int)
    (hn : storeGet store h = none) :
    update_schedule_after_review store h .SKIP today
      = some (storePut store h ⟨today, 1⟩) ∧
    storeGet (storePut store h ⟨today, 1⟩) h = some ⟨today, 1⟩ := by
  constructor
  · simp [update_schedule_after_review, current_index_of, hn]
  · simp [storeGet_storePut]

/-- Witness for amended C6. -/
theorem skip_on_unseen_creates_entry_witness :
    update_schedule_after_review ([] : Store) "q" .SKIP 7
      = some [("q", ⟨7, 1⟩)] ∧
    storeGet [("q", (⟨7, 1⟩ : SchedEntry))] "q" = some ⟨7, 1⟩ :=
  skip_on_unseen_creates_entry [] "q" 7 rfl

/-- C7: SKIP on an identifier with an existing entry keeps the stored
interval index and resets the due date to today, as an upsert. -/
theorem skip_on_existing_preserves_index (store : Store) (h : String)
    (today : Int) (e : SchedEntry) (he : storeGet store h = some e) :
    update_schedule_after_review store h .SKIP today
      = some (storePut store h ⟨today, e.review_date_index⟩) ∧
    storeGet (storePut store h ⟨today, e.review_date_index⟩) h
      = some ⟨today, e.review_date_index⟩ := by
  constructor
  · simp [update_schedule_after_review, current_index_of, he]
  · simp [storeGet_storePut]

/-- Witness for C7: SKIP on day 5 of an entry at index 4 keeps index 4 and
moves the due date to 5. -/
theorem skip_on_existing_preserves_index_witness :
    update_schedule_after_review [("q", (⟨0, 4⟩ : SchedEntry))] "q" .SKIP 5
      = some [("q", ⟨5, 4⟩)] ∧
    storeGet [("q", (⟨5, 4⟩ : SchedEntry))] "q" = some ⟨5, 4⟩ :=
  skip_on_existing_preserves_index [("q", ⟨0, 4⟩)] "q" 5 ⟨0, 4⟩ rfl

/-- The hashes pruning keeps are exactly the digests of the question line
(first line) of some chunk of some file. -/
theorem mem_prune_kept_hashes (hash : String → String)
    (files : List (List String)) (x : String) :
    x ∈ prune_kept_hashes hash files ↔
      ∃ lines, lines ∈ files ∧
        ∃ c, c ∈ parse_question_answer_pair_chunks lines ∧
          x = hash (chunk_question_line c) := by
  induction files with
  | nil => simp [prune_kept_hashes]
  | cons f fs ih =>
    rw [show prune_kept_hashes hash (f :: fs)
        = (parse_question_answer_pair_chunks f).map
            (fun c => hash (chunk_question_line c)) ++ prune_kept_hashes hash fs
      from rfl]
    simp only [List.mem_append, List.mem_map, List.mem_cons, ih]
    constructor
    · rintro (⟨c, hc, rfl⟩ | ⟨lines, hl, c, hc, rfl⟩)
      · exact ⟨f, Or.inl rfl, c, hc, rfl⟩
      · exact ⟨lines, Or.inr hl, c, hc, rfl⟩
    · rintro ⟨lines, hl | hl, c, hc, rfl⟩
      · exact Or.inl ⟨c, hl ▸ hc, rfl⟩
      · exact Or.inr ⟨lines, hl, c, hc, rfl⟩

/-- C1 (amended): pruning retains exactly the store entries whose key is
the digest of the QUESTION LINE (first line) of some chunk found under the
root, deletes every other entry, and never creates entries. -/
theorem delete_orphaned_retains_exactly (hash : String → String)
    (files : List (List String)) (store : Store) :
    (∀ p, p ∈ delete_orphaned_schedule_entries hash files store ↔
        (p ∈ store ∧ p.1 ∈ prune_kept_hashes hash files)) ∧
    (∀ p, p ∈ delete_orphaned_schedule_entries hash files store → p ∈ store) ∧
    (∀ x, x ∈ prune_kept_hashes hash files ↔
        ∃ lines, lines ∈ files ∧
          ∃ c, c ∈ parse_question_answer_pair_chunks lines ∧
            x = hash (chunk_question_line c)) := by
  refine ⟨?_, ?_, fun x => mem_prune_kept_hashes hash files x⟩
  · intro p
    simp [delete_orphaned_schedule_entries, List.mem_filter]
  · intro p hp
    exact (List.mem_filter.mp hp).1

/-- Witness for amended C1: the question-line-keyed entry is retained by a
prune over one file, and every retained entry was already in the store. -/
theorem delete_orphaned_retains_exactly_witness :
    ("?q", (⟨0, 1⟩ : SchedEntry))
      ∈ delete_orphaned_schedule_entries id [["?q", "a"]] [("?q", ⟨0, 1⟩)] ∧
    ("?q", (⟨0, 1⟩ : SchedEntry)) ∈ ([("?q", ⟨0, 1⟩)] : Store) :=
  have hmem : ("?q", (⟨0, 1⟩ : SchedEntry))
      ∈ delete_orphaned_schedule_entries id [["?q", "a"]] [("?q", ⟨0, 1⟩)] :=
    ((delete_orphaned_retains_exactly id [["?q", "a"]] [("?q", ⟨0, 1⟩)]).1
      ("?q", ⟨0, 1⟩)).mpr ⟨by decide, by decide⟩
  ⟨hmem,
   (delete_orphaned_retains_exactly id [["?q", "a"]] [("?q", ⟨0, 1⟩)]).2.1
     ("?q", ⟨0, 1⟩) hmem⟩

/-- C1 counterexample: with digest `id` over the single file
`"?q\na"` (question line `?q`, answer `a`), the code's prune keeps the
entry keyed by the question-line digest and deletes the one keyed by the
full-chunk digest — the opposite of what the claim (modelled by
`delete_orphaned_schedule_entries_claimed`) prescribes. -/
theorem delete_orphaned_full_chunk_counterexample :
    delete_orphaned_schedule_entries id [["?q", "a"]] [("?q\na", ⟨0, 1⟩)] = [] ∧
    delete_orphaned_schedule_entries_claimed id [["?q", "a"]] [("?q\na", ⟨0, 1⟩)]
      = [("?q\na", ⟨0, 1⟩)] ∧
    delete_orphaned_schedule_entries id [["?q", "a"]] [("?q", ⟨0, 1⟩)]
      = [("?q", ⟨0, 1⟩)] ∧
    delete_orphaned_schedule_entries_claimed id [["?q", "a"]] [("?q", ⟨0, 1⟩)]
      = [] := by
  refine ⟨by decide, by decide, by decide, by decide⟩

/-- C2: applying a WRONG/CORRECT/SKIP outcome to the card at the front of
the queue and then invoking UNDO restores every store lookup to its prior
value (in particular deleting an entry that was previously absent), leaves
the reviewed set without the card's identifier, pops the undo record, and
puts the undone card at the front of the queue immediately followed by the
card that was being shown when UNDO was invoked. -/
theorem undo_round_trip (hash : String → String) (today : Int)
    (s : SessionState) (q : String) (c : Chunk) (q2 : String) (c2 : Chunk)
    (rest : List (String × Chunk)) (o : ReviewOutcome)
    (hq : s.queue = (q, c) :: (q2, c2) :: rest)
    (ho : o = .WRONG ∨ o = .CORRECT ∨ o = .SKIP) :
    ∃ s1 s2,
      session_handle_outcome hash today s o = .next s1 ∧
      session_handle_outcome hash today s1 .UNDO = .next s2 ∧
      (∀ k, storeGet s2.store k = storeGet s.store k) ∧
      (∀ k, k ∈ s2.reviewed ↔ (k ∈ s.reviewed ∧ k ≠ hash q)) ∧
      s2.queue = (q, c) :: (q2, c2) :: rest ∧
      s2.history = s.history := by
  obtain ⟨e, hupd⟩ := update_is_put s.store (hash q) today o ho
  cases hprev : storeGet s.store (hash q) with
  | none =>
    refine ⟨⟨storePut s.store (hash q) e,
        if hash q ∈ s.reviewed then s.reviewed else hash q :: s.reviewed,
        (hash q, none, (q, c)) :: s.history, (q2, c2) :: rest⟩,
      ⟨storeDelete (storePut s.store (hash q) e) (hash q),
        (if hash q ∈ s.reviewed then s.reviewed
          else hash q :: s.reviewed).filter (fun x => decide (x ≠ hash q)),
        s.history, (q, c) :: (q2, c2) :: rest⟩,
      ?_, ?_, ?_, ?_, rfl, rfl⟩
    · rcases ho with rfl | rfl | rfl <;>
        simp only [session_handle_outcome, hq, hupd, hprev]
    · simp only [session_handle_outcome]
    · exact restore_absent s.store (hash q) e hprev
    · exact fun k => mem_insert_filter_ne s.reviewed (hash q) k
  | some pe =>
    refine ⟨⟨storePut s.store (hash q) e,
        if hash q ∈ s.reviewed then s.reviewed else hash q :: s.reviewed,
        (hash q, some pe, (q, c)) :: s.history, (q2, c2) :: rest⟩,
      ⟨storePut (storePut s.store (hash q) e) (hash q) pe,
        (if hash q ∈ s.reviewed then s.reviewed
          else hash q :: s.reviewed).filter (fun x => decide (x ≠ hash q)),
        s.history, (q, c) :: (q2, c2) :: rest⟩,
      ?_, ?_, ?_, ?_, rfl, rfl⟩
    · rcases ho with rfl | rfl | rfl <;>
        simp only [session_handle_outcome, hq, hupd, hprev]
    · simp only [session_handle_outcome]
    · exact restore_present s.store (hash q) e pe hprev
    · exact fun k => mem_insert_filter_ne s.reviewed (hash q) k

/-- Witness for C2: WRONG on an unseen card, then UNDO, in a two-card
session starting from an empty store. -/
theorem undo_round_trip_witness :
    ∃ s1 s2,
      session_handle_outcome id 0
          ⟨[], [], [], [("?a", ["?a", "x"]), ("?b", ["?b", "y"])]⟩ .WRONG
        = .next s1 ∧
      session_handle_outcome id 0 s1 .UNDO = .next s2 ∧
      (∀ k, storeGet s2.store k = storeGet ([] : Store) k) ∧
      (∀ k, k ∈ s2.reviewed ↔ (k ∈ ([] : List String) ∧ k ≠ id "?a")) ∧
      s2.queue = [("?a", ["?a", "x"]), ("?b", ["?b", "y"])] ∧
      s2.history = ([] : List UndoRecord) :=
  undo_round_trip id 0 ⟨[], [], [], [("?a", ["?a", "x"]), ("?b", ["?b", "y"])]⟩
    "?a" ["?a", "x"] "?b" ["?b", "y"] [] .WRONG rfl (Or.inl rfl)

/-- C8: UNDO with an empty undo history terminates the session (the step
result is `terminated`, not a `next` that would continue it), and the
store, the reviewed set and the history are left untouched. -/
theorem undo_empty_history_terminates (hash : String → String) (today : Int)
    (s : SessionState) (q : String) (c : Chunk) (rest : List (String × Chunk))
    (hq : s.queue = (q, c) :: rest) (hh : s.history = []) :
    ∃ s', session_handle_outcome hash today s .UNDO = .terminated s' ∧
      s'.store = s.store ∧ s'.reviewed = s.reviewed ∧ s'.history = s.history := by
  refine ⟨{ s with queue := rest }, ?_, rfl, rfl, rfl⟩
  simp only [session_handle_outcome, hq, hh]

/-- Witness for C8: UNDO with empty history in a one-card session with a
nonempty store and reviewed set. -/
theorem undo_empty_history_terminates_witness :
    ∃ s', session_handle_outcome id 0
        ⟨[("x", ⟨0, 2⟩)], ["x"], [], [("?a", ["?a"])]⟩ .UNDO
      = .terminated s' ∧
      s'.store = [("x", (⟨0, 2⟩ : SchedEntry))] ∧
      s'.reviewed = ["x"] ∧
      s'.history = ([] : List UndoRecord) :=
  undo_empty_history_terminates id 0 ⟨[("x", ⟨0, 2⟩)], ["x"], [], [("?a", ["?a"])]⟩
    "?a" ["?a"] [] rfl rfl

/-- Handling any outcome other than UNDO never removes an identifier from
the reviewed set, whichever way the iteration ends. -/
theorem reviewed_only_shrinks_on_undo (hash : String → String) (today : Int)
    (t : SessionState) (o : ReviewOutcome) (x : String)
    (ho : o ≠ .UNDO) (hx : x ∈ t.reviewed) :
    x ∈ (stepState (session_handle_outcome hash today t o)).reviewed := by
  cases hq : t.queue with
  | nil =>
    simp only [session_handle_outcome, hq, stepState]
    exact hx
  | cons hd rest =>
    obtain ⟨ql, ch⟩ := hd
    cases o with
    | UNDO => exact absurd rfl ho
    | QUIT =>
      simp only [session_handle_outcome, hq, stepState]
      exact hx
    | EDIT =>
      simp only [session_handle_outcome, hq, stepState]
      exact hx
    | WRONG =>
      obtain ⟨e, hupd⟩ :=
        update_is_put t.store (hash ql) today .WRONG (Or.inl rfl)
      simp only [session_handle_outcome, hq, hupd, stepState]
      by_cases hm : hash ql ∈ t.reviewed
      · simpa [hm] using hx
      · simp [hm, hx]
    | CORRECT =>
      obtain ⟨e, hupd⟩ :=
        update_is_put t.store (hash ql) today .CORRECT (Or.inr (Or.inl rfl))
      simp only [session_handle_outcome, hq, hupd, stepState]
      by_cases hm : hash ql ∈ t.reviewed
      · simpa [hm] using hx
      · simp [hm, hx]
    | SKIP =>
      obtain ⟨e, hupd⟩ :=
        update_is_put t.store (hash ql) today .SKIP (Or.inr (Or.inr rfl))
      simp only [session_handle_outcome, hq, hupd, stepState]
      by_cases hm : hash ql ∈ t.reviewed
      · simpa [hm] using hx
      · simp [hm, hx]

/-- C9 counterexample: with two chunks sharing the question line `?q`, the
first selection pass of a fresh session puts the same identifier into the
work queue twice; after a CORRECT on the front copy the step result is
`next` (the inner loop continues normally, no UNDO), the identifier is in
the reviewed set, and the card now at the front of the queue carries that
very identifier — so it is presented twice via the normal queue-advance
path, refuting at-most-once-per-session presentation. -/
theorem session_dedup_counterexample :
    parse_question_answer_pair_chunks ["?q", "a1", "?q", "a2"]
      = [["?q", "a1"], ["?q", "a2"]] ∧
    filter_unreviewed id
        (get_due_questions id [] 0 [["?q", "a1"], ["?q", "a2"]]) []
      = [("?q", ["?q", "a1"]), ("?q", ["?q", "a2"])] ∧
    session_handle_outcome id 0
        ⟨[], [], [], [("?q", ["?q", "a1"]), ("?q", ["?q", "a2"])]⟩ .CORRECT
      = .next ⟨[("?q", ⟨3, 2⟩)], ["?q"],
          [("?q", none, ("?q", ["?q", "a1"]))], [("?q", ["?q", "a2"])]⟩ ∧
    id (("?q", ["?q", "a2"]) : String × Chunk).1 ∈ (["?q"] : List String) := by
  decide

/-- C9 (amended): applying a WRONG/CORRECT/SKIP outcome to the front card
puts its identifier into the reviewed set, every due-selection pass whose
reviewed set contains that identifier excludes every card with that
identifier, and no outcome other than UNDO ever removes an identifier from
the reviewed set — dedup holds at selection-pass granularity, while within
the pass in which it was reviewed a duplicate question line already in the
queue can present the identifier again (see the counterexample). -/
theorem session_dedup (hash : String → String) (today : Int)
    (s : SessionState) (q : String) (c : Chunk)
    (rest : List (String × Chunk)) (o : ReviewOutcome)
    (hq : s.queue = (q, c) :: rest)
    (ho : o = .WRONG ∨ o = .CORRECT ∨ o = .SKIP) :
    ∃ s1,
      session_handle_outcome hash today s o = .next s1 ∧
      hash q ∈ s1.reviewed ∧
      (∀ (store2 : Store) (today2 : Int) (chunks : List Chunk)
          (reviewed2 : List String),
        hash q ∈ reviewed2 →
        ∀ p ∈ filter_unreviewed hash
            (get_due_questions hash store2 today2 chunks) reviewed2,
          hash p.1 ≠ hash q) ∧
      (∀ (t : SessionState) (today2 : Int) (o2 : ReviewOutcome) (x : String),
        o2 ≠ .UNDO → x ∈ t.reviewed →
        x ∈ (stepState (session_handle_outcome hash today2 t o2)).reviewed) := by
  obtain ⟨e, hupd⟩ := update_is_put s.store (hash q) today o ho
  refine ⟨⟨storePut s.store (hash q) e,
      if hash q ∈ s.reviewed then s.reviewed else hash q :: s.reviewed,
      (hash q, storeGet s.store (hash q), (q, c)) :: s.history, rest⟩,
    ?_, ?_, ?_, ?_⟩
  · rcases ho with rfl | rfl | rfl <;>
      simp only [session_handle_outcome, hq, hupd]
  · by_cases hm : hash q ∈ s.reviewed <;> simp [hm]
  · intro store2 today2 chunks reviewed2 hmem p hp heq
    have hnot : hash p.1 ∉ reviewed2 := by
      have := (List.mem_filter.mp hp).2
      simpa using this
    exact hnot (heq ▸ hmem)
  · intro t today2 o2 x ho2 hx2
    exact reviewed_only_shrinks_on_undo hash today2 t o2 x ho2 hx2

/-- Witness for amended C9: CORRECT on the only due card of a fresh
session; a subsequent pass over the same file with the resulting reviewed
set yields no card with that identifier. -/
theorem session_dedup_witness :
    ∃ s1,
      session_handle_outcome id 0 ⟨[], [], [], [("?a", ["?a", "x"])]⟩ .CORRECT
        = .next s1 ∧
      id "?a" ∈ s1.reviewed ∧
      (∀ (store2 : Store) (today2 : Int) (chunks : List Chunk)
          (reviewed2 : List String),
        id "?a" ∈ reviewed2 →
        ∀ p ∈ filter_unreviewed id
            (get_due_questions id store2 today2 chunks) reviewed2,
          id p.1 ≠ id "?a") ∧
      (∀ (t : SessionState) (today2 : Int) (o2 : ReviewOutcome) (x : String),
        o2 ≠ .UNDO → x ∈ t.reviewed →
        x ∈ (stepState (session_handle_outcome id today2 t o2)).reviewed) :=
  session_dedup id 0 ⟨[], [], [], [("?a", ["?a", "x"])]⟩ "?a" ["?a", "x"] []
    .CORRECT rfl (Or.inr (Or.inl rfl))

/-- C10: custom study parses the file and presents every chunk but never
touches the schedule store: the store after the run is the store before. -/
theorem custom_study_preserves_store (store : Store) (lines : List String) :
    (custom_study_all_questions store lines).1 = store := by
  unfold custom_study_all_questions
  cases parse_question_answer_pair_chunks lines <;> rfl

end Anki
